import Mathlib

/-!
Verification of the TranscribAPP capture-and-enhancement pipeline.

Shallow embedding of the text-processing core of the repository:
`technical_terms.py`, `simple_text_processor.py`, `qwen_processor.py`
(post-generation validation only), `model_manager.py` (stage orchestration
and fallback decisions) and `audio_handler.py` (ring buffer and recording
state machine).  Python strings are modelled as Lean `String` working over
`String.data : List Char`; `str.lower`/`str.upper` are modelled by the
ASCII case maps below (the accented vowels appearing in the data tables
are case-fixed points of both models); float comparisons `x > k * y` with
`k ∈ {0.2, 0.5, 1.5, 2}` are modelled by the equivalent exact integer
comparisons.  Model calls (Whisper, Qwen, the translator) are external
inputs of the embedding: a stage that may raise is given the outcome of
its model call as an `Option String` (`none` models a raised exception).
-/

/-! ## ASCII case maps (model of Python `str.lower` / `str.upper`) -/

/-- ASCII lower-casing of one character, as in `Char.toLower`. -/
def lowChar (c : Char) : Char :=
  if 65 ≤ c.toNat ∧ c.toNat ≤ 90 then Char.ofNat (c.toNat + 32) else c

/-- ASCII upper-casing of one character, as in `Char.toUpper`. -/
def upChar (c : Char) : Char :=
  if 97 ≤ c.toNat ∧ c.toNat ≤ 122 then Char.ofNat (c.toNat - 32) else c

/-- ASCII uppercase letter test. -/
def isUpperAscii (c : Char) : Bool := decide (65 ≤ c.toNat ∧ c.toNat ≤ 90)

/-- ASCII lowercase letter test. -/
def isLowerAscii (c : Char) : Bool := decide (97 ≤ c.toNat ∧ c.toNat ≤ 122)

theorem toNat_charOfNat (n : Nat) (h : n.isValidChar) : (Char.ofNat n).toNat = n := by
  simp only [Char.ofNat, h, dif_pos, Char.ofNatAux, Char.toNat, UInt32.toNat]
  simp [BitVec.toNat_ofNatLt]

theorem lowChar_not_upper (c : Char) : isUpperAscii (lowChar c) = false := by
  unfold lowChar isUpperAscii
  split
  · next h =>
    have hv : (c.toNat + 32).isValidChar := Or.inl (by omega)
    rw [toNat_charOfNat _ hv]
    simp only [decide_eq_false_iff_not]
    omega
  · next h =>
    simp only [decide_eq_false_iff_not]
    omega

theorem upChar_not_lower (c : Char) : isLowerAscii (upChar c) = false := by
  unfold upChar isLowerAscii
  split
  · next h =>
    have hv : (c.toNat - 32).isValidChar := Or.inl (by omega)
    rw [toNat_charOfNat _ hv]
    simp only [decide_eq_false_iff_not]
    omega
  · next h =>
    simp only [decide_eq_false_iff_not]
    omega

/-! ## Python string primitives over `List Char` -/

/-- Python whitespace (`str.split()`, `str.strip()`, regex `\s`), ASCII part. -/
def pyIsSpace (c : Char) : Bool :=
  c == ' ' || c == '\t' || c == '\n' || c == '\r' || c == '\x0b' || c == '\x0c'

/-- Python regex `\w`: ASCII alphanumerics, underscore, and the non-ASCII
letters (covers the accented vowels in the correction tables). -/
def isWordChar (c : Char) : Bool := c.isAlphanum || c == '_' || decide (192 ≤ c.toNat)

/-- Python `str.isalnum` restricted likewise. -/
def pyIsAlnum (c : Char) : Bool := c.isAlphanum || decide (192 ≤ c.toNat)

/-- Model of Python `str.lower`. -/
def pyLower (s : String) : String := ⟨s.data.map lowChar⟩

/-- `startsWithL pat s` is true when `pat` is a prefix of `s`. -/
def startsWithL : List Char → List Char → Bool
  | [], _ => true
  | _ :: _, [] => false
  | a :: as, b :: bs => a == b && startsWithL as bs

/-- `hasSubL pat s`: `pat` occurs as a contiguous substring of `s`
(Python `pat in s`). -/
def hasSubL (pat : List Char) : List Char → Bool
  | [] => startsWithL pat []
  | c :: t => startsWithL pat (c :: t) || hasSubL pat t

/-- Python `sub in s` on strings. -/
def pyContains (s sub : String) : Bool := hasSubL sub.data s.data

/-- Scan for Python `s.replace(pat, rep)`: the counter is the number of
still-to-drop characters of a match whose replacement was already
emitted (matched text is consumed, replacements are not rescanned). -/
def replaceGo (pat rep : List Char) : List Char → Nat → List Char
  | [], _ => []
  | _ :: t, skip + 1 => replaceGo pat rep t skip
  | c :: t, 0 =>
    if pat ≠ [] ∧ startsWithL pat (c :: t) = true then
      rep ++ replaceGo pat rep t (pat.length - 1)
    else
      c :: replaceGo pat rep t 0

/-- Python `s.replace(pat, rep)` (all non-overlapping occurrences, left to
right).  The empty pattern never occurs in the source; it is modelled as
the identity. -/
def replaceL (pat rep s : List Char) : List Char := replaceGo pat rep s 0

/-- Python `s.replace(pat, rep)` on strings. -/
def pyReplace (s pat rep : String) : String := ⟨replaceL pat.data rep.data s.data⟩

/-- Scan for Python `s.count(sub)`, same skip-counter device. -/
def countGo (pat : List Char) : List Char → Nat → Nat
  | [], _ => 0
  | _ :: t, skip + 1 => countGo pat t skip
  | c :: t, 0 =>
    if pat ≠ [] ∧ startsWithL pat (c :: t) = true then
      countGo pat t (pat.length - 1) + 1
    else
      countGo pat t 0

/-- Python `s.count(sub)` (an empty pattern counts `len(s) + 1`). -/
def pyCount (s pat : String) : Nat :=
  if pat.data = [] then s.data.length + 1 else countGo pat.data s.data 0

/-- Both-ends trim by a character predicate. -/
def trimBy (p : Char → Bool) (l : List Char) : List Char :=
  ((l.dropWhile p).reverse.dropWhile p).reverse

/-- Python `s.strip()`. -/
def pyStrip (s : String) : String := ⟨trimBy pyIsSpace s.data⟩

/-- Python `s.strip(c)` for a single-character argument. -/
def pyStripChar (c : Char) (s : String) : String := ⟨trimBy (· == c) s.data⟩

/-- Split at every character satisfying `p`, keeping empty pieces
(Python `s.split(sep)` shape). -/
def splitPred (p : Char → Bool) : List Char → List (List Char)
  | [] => [[]]
  | c :: t =>
    let r := splitPred p t
    if p c then [] :: r
    else
      match r with
      | [] => [[c]]
      | h :: t2 => (c :: h) :: t2

/-- Python `s.split()` — split on whitespace runs, no empty pieces. -/
def pySplitWS (s : String) : List String :=
  ((splitPred pyIsSpace s.data).filter (fun l => !l.isEmpty)).map (fun l => ⟨l⟩)

/-- Python `s.split(chr)` — empty pieces kept. -/
def pySplitChar (c : Char) (s : String) : List String :=
  (splitPred (· == c) s.data).map (fun l => ⟨l⟩)

/-- `' '.join(l)`. -/
def joinSp : List String → String
  | [] => ""
  | s :: t =>
    match t with
    | [] => s
    | _ :: _ => s ++ " " ++ joinSp t

/-- Python `s[:n]` (by code points). -/
def strTake (s : String) (n : Nat) : String := ⟨s.data.take n⟩

/-- The distinct elements of a list, first occurrences kept
(cardinality of the corresponding Python `set`). -/
def distinctL : List String → List String
  | [] => []
  | x :: t => x :: (distinctL t).filter (· ≠ x)

/-! ## A small backtracking regex engine (model of the `re` module fragment
used by the repository)

The patterns in the source use: literal characters, `(..|..)` ordered
alternation, `?` on a group, `+` on the character classes `\w` and `\s`,
character classes, capturing groups, `\b`, `^` and `$`, all matched
case-insensitively where the source passes `re.IGNORECASE`.  Matching
follows Python semantics: leftmost match, alternatives tried in order,
greedy repetition with backtracking. -/

inductive RE where
  | eps
  | lit (c : Char)
  | cls (p : Char → Bool)
  | seq (a b : RE)
  | alt (a b : RE)
  | opt (a : RE)
  | many1 (p : Char → Bool)
  | grp (g : Nat) (a : RE)
  | bnd
  | bos
  | eos

/-- Case-insensitive character comparison (`re.IGNORECASE`). -/
def charEqCI (a b : Char) : Bool := lowChar a == lowChar b

/-- Length of the run of characters satisfying `p`. -/
def runLen (p : Char → Bool) : List Char → Nat
  | [] => 0
  | c :: t => if p c then runLen p t + 1 else 0

/-- Is there a word character at index `i`? -/
def wordAt (s : List Char) (i : Nat) : Bool :=
  match s[i]? with
  | some c => isWordChar c
  | none => false

/-- Python `\b`: exactly one of the two neighbouring positions holds a
word character. -/
def atBoundary (s : List Char) (i : Nat) : Bool :=
  (decide (0 < i) && wordAt s (i - 1)) != wordAt s i

/-- Python `$` (no MULTILINE): end of string, or just before a final
newline. -/
def atEos (s : List Char) (i : Nat) : Bool :=
  decide (i = s.length) || (decide (i + 1 = s.length) && (s[i]? == some '\n'))

/-- A capture: group index, start, end. -/
abbrev Capture := Nat × Nat × Nat

/-- All ways to match `re` at position `i` of `s`, as `(end, captures)`
pairs in Python backtracking priority order (head is the match Python
takes). -/
def reMatchesAt (s : List Char) : RE → Nat → List (Nat × List Capture)
  | .eps, i => [(i, [])]
  | .lit c, i =>
    match s[i]? with
    | some d => if charEqCI c d then [(i + 1, [])] else []
    | none => []
  | .cls p, i =>
    match s[i]? with
    | some d => if p d then [(i + 1, [])] else []
    | none => []
  | .seq a b, i =>
    (reMatchesAt s a i).flatMap fun ec =>
      (reMatchesAt s b ec.1).map fun ec2 => (ec2.1, ec.2 ++ ec2.2)
  | .alt a b, i => reMatchesAt s a i ++ reMatchesAt s b i
  | .opt a, i => reMatchesAt s a i ++ [(i, [])]
  | .many1 p, i =>
    let n := runLen p (s.drop i)
    (List.range n).map fun k => (i + n - k, [])
  | .grp g a, i =>
    (reMatchesAt s a i).map fun ec => (ec.1, (g, i, ec.1) :: ec.2)
  | .bnd, i => if atBoundary s i then [(i, [])] else []
  | .bos, i => if i = 0 then [(i, [])] else []
  | .eos, i => if atEos s i then [(i, [])] else []

/-- One item of a replacement template: a literal piece or a group
reference (`\1`). -/
inductive TItem where
  | lit (t : String)
  | ref (g : Nat)

/-- Instantiate a replacement template.  An unmatched group reference
yields the empty string (Python ≥ 3.5 `re.sub`). -/
def instTemplate (s : List Char) (caps : List Capture) : List TItem → List Char
  | [] => []
  | .lit t :: rest => t.data ++ instTemplate s caps rest
  | .ref g :: rest =>
    (match caps.find? (fun e => e.1 == g) with
     | some e => (s.drop e.2.1).take (e.2.2 - e.2.1)
     | none => []) ++ instTemplate s caps rest

/-- The scan of `re.sub`: try a match at each position left to right; on a
match emit the instantiated template and continue after it, otherwise copy
one character.  `fuel` only forces termination; it is always called with
enough fuel.  (The source patterns cannot match the empty string, so the
zero-width branch is unreachable; it copies a character to advance.) -/
def reSubFrom (s : List Char) (re : RE) (tmpl : List TItem) : Nat → Nat → List Char
  | _, 0 => []
  | i, fuel + 1 =>
    if i < s.length then
      match (reMatchesAt s re i).head? with
      | some (j, caps) =>
        if i < j then instTemplate s caps tmpl ++ reSubFrom s re tmpl j fuel
        else (s.drop i).take 1 ++ reSubFrom s re tmpl (i + 1) fuel
      | none => (s.drop i).take 1 ++ reSubFrom s re tmpl (i + 1) fuel
    else []

/-- Python `re.sub(re, tmpl, s)` for the pattern fragment above. -/
def reSub (re : RE) (tmpl : List TItem) (s : String) : String :=
  ⟨reSubFrom s.data re tmpl 0 (s.data.length + 1)⟩

/-- Sequence a list of regexes. -/
def reSeqL (l : List RE) : RE := l.foldr .seq .eps

/-- A literal string as a regex. -/
def reStr (t : String) : RE := reSeqL (t.data.map .lit)

/-- Ordered alternation of literal words. -/
def reAlts : List String → RE
  | [] => .eps
  | [w] => reStr w
  | w :: t => .alt (reStr w) (reAlts t)

/-- `\s+`. -/
def reWS : RE := .many1 pyIsSpace

/-- `\w+` in a capturing group. -/
def reWordPlus (g : Nat) : RE := .grp g (.many1 isWordChar)

/-! ## `technical_terms.py` -/

namespace TechnicalTerms

/-- `TECHNICAL_CORRECTIONS`, in source order (dict keys are unique, so a
first-match association list is faithful). -/
def TECHNICAL_CORRECTIONS : List (String × String) :=
  [("trinme", "README"), ("trime", "README"), ("ridmi", "README"),
   ("redmi", "README"), ("rid me", "README"), ("read me", "README"),
   ("git jab", "GitHub"), ("guitjab", "GitHub"), ("guit", "git"),
   ("comit", "commit"), ("pul", "pull"), ("puch", "push"),
   ("bransh", "branch"), ("branch", "branch"),
   ("faison", "Python"), ("paiton", "Python"), ("piton", "Python"),
   ("yasón", "JSON"), ("yeison", "JSON"), ("eich ti eme ele", "HTML"),
   ("ce ese ese", "CSS"), ("api", "API"), ("a pi ai", "API"),
   ("pac-age", "package"), ("packash", "package"),
   ("packash.yasón", "package.json"), ("packash.json", "package.json"),
   ("noud modules", "node_modules"), ("nod modules", "node_modules"),
   ("requaierments", "requirements"), ("requeriments", "requirements"),
   ("requairements", "requirements"),
   ("riact", "React"), ("riac", "React"), ("angiular", "Angular"),
   ("viu", "Vue"), ("diango", "Django"), ("flask", "Flask"),
   ("enpiem", "npm"), ("en pi eme", "npm"), ("pip", "pip"), ("pib", "pip"),
   ("instal", "install"), ("instol", "install"),
   ("escuel", "SQL"), ("es cu ele", "SQL"), ("posgrés", "PostgreSQL"),
   ("postgre", "PostgreSQL"), ("mongodivi", "MongoDB"),
   ("mongo divi", "MongoDB"),
   ("dita", "data"), ("deita", "data"), ("sérver", "server"),
   ("claud", "cloud"), ("claund", "cloud"), ("douker", "Docker"),
   ("doker", "Docker")]

/-- `CONTEXTUAL_PATTERNS`, in source order, each as a regex with its
replacement template. -/
def CONTEXTUAL_PATTERNS : List (RE × List TItem) :=
  [ (reSeqL [.bnd, .grp 1 (reAlts ["actualizar", "update", "cambiar", "change"]),
       reWS, .opt (.grp 2 (.seq (reStr "el") reWS)),
       .grp 3 (reAlts ["trinme", "trime", "ridmi", "redmi"]), .bnd],
     [.ref 1, .lit " ", .ref 2, .lit "README"]),
    (reSeqL [.bnd, .grp 1 (reAlts ["archivo", "file"]), reWS,
       .grp 2 (reAlts ["trinme", "trime", "ridmi", "redmi"]), .bnd],
     [.ref 1, .lit " README"]),
    (reSeqL [.bnd, .grp 1 (reAlts ["hacer", "make", "create"]), reWS,
       .opt (.grp 2 (.seq (reStr "un") reWS)),
       .grp 3 (reAlts ["comit", "commit"]), .bnd],
     [.ref 1, .lit " ", .ref 2, .lit "commit"]),
    (reSeqL [.bnd, .grp 1 (reAlts ["subir", "upload", "push"]), reWS,
       .opt (.grp 2 (.seq (reStr "a") reWS)),
       .grp 3 (reAlts ["git jab", "guitjab"]), .bnd],
     [.ref 1, .lit " ", .ref 2, .lit "GitHub"]),
    (reSeqL [.bnd, .grp 1 (reAlts ["nuevo", "new"]), reWS,
       .grp 2 (reStr "bransh"), reWS, reStr "en", reWS,
       .grp 3 (reStr "git jab"), .bnd],
     [.ref 1, .lit " branch en GitHub"]),
    (reSeqL [.bnd, .grp 1 (reAlts ["enpiem", "en pi eme"]), reWS,
       .grp 2 (reAlts ["instal", "instol"]), .bnd],
     [.lit "npm install"]),
    (reSeqL [.bnd, .grp 1 (reAlts ["pib", "pip"]), reWS,
       .grp 2 (reAlts ["instal", "instol"]), .bnd],
     [.lit "pip install"]),
    (reSeqL [.bnd, .grp 1 (reAlts ["pib", "pip"]), reWS,
       .grp 2 (reAlts ["instal", "instol"]), reWS,
       .grp 3 (reAlts ["requaierments", "requeriments", "requairements"]), .bnd],
     [.lit "pip install requirements"]),
    (reSeqL [.bnd, reStr "packash.", .grp 1 (reAlts ["yasón", "yeison", "json"]), .bnd],
     [.lit "package.json"]),
    (reSeqL [.bnd, reWordPlus 1, .lit '.', .grp 2 (reAlts ["yasón", "yeison"]), .bnd],
     [.ref 1, .lit ".json"]),
    (reSeqL [.bnd, reWordPlus 1, reStr ".pi", .bnd],
     [.ref 1, .lit ".py"]),
    (reSeqL [.bnd, reWordPlus 1, reStr ".yei ese", .bnd],
     [.ref 1, .lit ".js"]),
    (reSeqL [.bnd, reStr "requaierments.txt", .bnd],
     [.lit "requirements.txt"]) ]

/-- Dictionary lookup `corrections[lower_word]`. -/
def lookupCorrection (k : String) : Option String :=
  (TECHNICAL_CORRECTIONS.find? (fun e => e.1 == k)).map (·.2)

/-- Word-level correction step of `process_text`: strip one trailing
non-alphanumeric character, look the lower-cased word up, re-attach the
stripped character; an unknown word is kept verbatim. -/
def correctWord (w : String) : String :=
  match w.data.getLast? with
  | none => w
  | some c =>
    if !pyIsAlnum c then
      match lookupCorrection (pyLower ⟨w.data.dropLast⟩) with
      | some r => r ++ ⟨[c]⟩
      | none => w
    else
      match lookupCorrection (pyLower w) with
      | some r => r
      | none => w

/-- `\s+` collapse and `\s+([.,;!?])` tightening used at the end of
`process_text`. -/
def spacePunct : RE :=
  .seq reWS (.grp 1 (.cls (fun c => c == '.' || c == ',' || c == ';' || c == '!' || c == '?')))

/-- `TechnicalTermsProcessor.process_text`. -/
def process_text (text : String) : String :=
  if text = "" then text
  else
    let processed := CONTEXTUAL_PATTERNS.foldl (fun s pt => reSub pt.1 pt.2 s) text
    let result := joinSp ((pySplitWS processed).map correctWord)
    let result := reSub reWS [.lit " "] result
    reSub spacePunct [.ref 1] result

end TechnicalTerms

/-! ## `simple_text_processor.py` -/

namespace SimpleTextProcessor

/-- `r'\b(este|eh|mmm|um|uhm|ah|oh|bueno)\b'`. -/
def fillerRE : RE :=
  reSeqL [.bnd, .grp 1 (reAlts ["este", "eh", "mmm", "um", "uhm", "ah", "oh", "bueno"]), .bnd]

/-- `r'^\s+|\s+$'`. -/
def trimRE : RE := .alt (.seq .bos reWS) (.seq reWS .eos)

/-- `cleaned[0].upper() + cleaned[1:]` applied to a nonempty string. -/
def capFirst (s : String) : String :=
  match s.data with
  | [] => s
  | c :: t => ⟨upChar c :: t⟩

/-- `cleaned[-1] in '.!?'`. -/
def endsPunct (s : String) : Bool :=
  match s.data.getLast? with
  | some c => c == '.' || c == '!' || c == '?'
  | none => false

/-- The final two steps of `clean_spanish_text`: capitalize the first
character of a nonempty string, then append `'.'` when the last character
is not already terminal punctuation. -/
def cleanFinalize (cleaned : String) : String :=
  let cleaned := capFirst cleaned
  if cleaned != "" && !endsPunct cleaned then cleaned ++ "." else cleaned

/-- `SimpleTextProcessor.clean_spanish_text`: lower-case, strip filler
words, collapse whitespace, trim, capitalize the first character, ensure
terminal punctuation. -/
def clean_spanish_text (text : String) : String :=
  let cleaned := pyLower text
  let cleaned := reSub fillerRE [.lit " "] cleaned
  let cleaned := reSub reWS [.lit " "] cleaned
  let cleaned := reSub trimRE [.lit " "] cleaned
  cleanFinalize (pyStrip cleaned)

/-- `re.sub(r'^(\w)', lambda m: m.group(1).upper(), s)`. -/
def capFirstWord (s : String) : String :=
  match s.data with
  | [] => s
  | c :: t => if isWordChar c then ⟨upChar c :: t⟩ else s

/-- `r'([a-zA-Z])$'` with replacement `r'\1.'`. -/
def periodRE : RE := .seq (.grp 1 (.cls Char.isAlpha)) .eos

/-- `SimpleTextProcessor.enhance_translation` (the Spanish argument is
only logged by the source). -/
def enhance_translation (_spanish english : String) : String :=
  let e := reSub (reStr "the the") [.lit "the"] english
  let e := reSub (reStr "a a") [.lit "a"] e
  let e := reSub (reStr "is is") [.lit "is"] e
  let e := capFirstWord e
  let e := reSub periodRE [.ref 1, .lit "."] e
  let e := pyStrip e
  let e := capFirst e
  if e != "" && !endsPunct e then e ++ "." else e

end SimpleTextProcessor

/-! ## `qwen_processor.py` — post-generation processing and validation

The model call itself is an external input: its outcome is passed in as an
`Option String`, `none` modelling a raised exception (the source catches
it and returns the stage input). -/

namespace QwenProcessor

/-- Role-marker scrubbing shared by both stages (lines 140–141 and
216–217 of the source). -/
def stripMarkers (response : String) : String :=
  let r := pyReplace response "assistant" ""
  let r := pyReplace r "Assistant" ""
  let r := pyReplace r "\nassistant\n" " "
  pyReplace r "\nAssistant\n" " "

/-- `clean_spanish_text` post-processing: scrub markers, strip, split into
lines, keep each stripped nonempty line once, join with spaces. -/
def cleanCandidate (response : String) : String :=
  let r := pyStrip (stripMarkers response)
  let uniq := (pySplitChar '\n' r).foldl
    (fun acc l =>
      let cl := pyStrip l
      if cl != "" && !acc.contains cl then acc ++ [cl] else acc) []
  joinSp uniq

/-- Validation of the cleaning candidate against the stage input: reject
the empty or too-short, reject more than twice the input length. -/
def cleanAccept (cleaned text : String) : Bool :=
  if cleaned == "" || cleaned.length < 3 then false
  else if 2 * text.length < cleaned.length then false
  else true

/-- `QwenProcessor.clean_spanish_text` given the model-call outcome: on an
exception or a rejected candidate return the input text, otherwise the
candidate with technical terms corrected. -/
def clean_spanish_text (text : String) (resp : Option String) : String :=
  match resp with
  | none => text
  | some r =>
    let cleaned := cleanCandidate r
    if cleanAccept cleaned text then TechnicalTerms.process_text cleaned else text

/-- `spanish_indicators` (line 240). -/
def spanish_indicators : List String :=
  ["que", "por", "está", "pero", "como", "cuando", "donde", "así", "también"]

/-- Prompt-echo markers filtered out of candidate lines (lines 225–226). -/
def promptMarkers : List String :=
  ["spanish:", "english:", "improved:", "translated:", "corrected:", "fixed:", "here"]

/-- `enhance_translation` post-processing: scrub markers, drop lines that
look like prompt echoes, join, strip quotes and whitespace. -/
def enhCandidate (response : String) : String :=
  let r := stripMarkers response
  let kept := (pySplitChar '\n' r).foldl
    (fun acc l =>
      let cl := pyStrip l
      if cl != "" && !(promptMarkers.any (fun m => pyContains (pyLower cl) m)) then
        acc ++ [cl]
      else acc) []
  let e := pyStrip (joinSp kept)
  pyStrip (pyStripChar (Char.ofNat 39) (pyStripChar '"' e))

/-- Spanish-contamination test (lines 239–244): the number of indicator
words present among the candidate tokens, over the token count, above
`0.2` (`5·count > len` exactly). -/
def spanishContam (e : String) : Bool :=
  let ws := pySplitWS (pyLower e)
  let cnt := (spanish_indicators.filter (fun w => ws.contains w)).length
  decide (0 < ws.length) && decide (ws.length < 5 * cnt)

/-- Duplication test (line 249): the first 20 characters of the reference
occur more than once in the candidate. -/
def dupEnh (e english : String) : Bool :=
  decide (1 < pyCount e (strTake english 20))

/-- Length-drift test (line 254): outside `[0.5·ref, 1.5·ref]`
(`2·len > 3·ref ∨ 2·len < ref` exactly). -/
def lenDrift (e english : String) : Bool :=
  decide (3 * english.length < 2 * e.length) || decide (2 * e.length < english.length)

/-- Content-divergence test (lines 258–267): only when the reference has
more than two distinct lowercase tokens, reject when fewer than half of
them recur in the candidate. -/
def divergent (e english : String) : Bool :=
  let ew := distinctL (pySplitWS (pyLower english))
  let hw := pySplitWS (pyLower e)
  decide (2 < ew.length) && decide (2 * (ew.filter (fun w => hw.contains w)).length < ew.length)

/-- Validation of the enhancement candidate against the raw translation,
in source order; every failing test returns the raw translation. -/
def enhAccept (e english : String) : Bool :=
  if e == "" || e.length < 3 then false
  else if spanishContam e then false
  else if dupEnh e english then false
  else if lenDrift e english then false
  else if divergent e english then false
  else true

/-- `QwenProcessor.enhance_translation` given the model-call outcome (the
Spanish text only feeds the prompt, not the validation). -/
def enhance_translation (_spanish english : String) (resp : Option String) : String :=
  match resp with
  | none => english
  | some r =>
    let e := enhCandidate r
    if enhAccept e english then TechnicalTerms.process_text e else english

end QwenProcessor

/-! ## `model_manager.py` — stage orchestration and fallback decisions -/

namespace ModelManager

/-- `'assistant' in s.lower()`. -/
def containsAssistant (s : String) : Bool := pyContains (pyLower s) "assistant"

/-- `s.count('\n')`. -/
def countNl (s : String) : Nat := (s.data.filter (· == '\n')).length

/-- Manager-side validation after cleaning (lines 298–303): role markers
or more than two newlines discard the cleaned text for the raw text. -/
def cleanDecision (cleaned raw : String) : String :=
  if containsAssistant cleaned || decide (2 < countNl cleaned) then raw else cleaned

/-- The cleaning stage of `transcribe` (lines 294–307): Qwen when loaded,
otherwise the deterministic simple cleaner. -/
def transcribeCleanStage (qwenAvail : Bool) (resp : Option String) (text : String) : String :=
  if qwenAvail then cleanDecision (QwenProcessor.clean_spanish_text text resp) text
  else SimpleTextProcessor.clean_spanish_text text

/-- The soundfile fallback decode of `transcribe` (lines 184–275) is an
external input of the model; its produced text is a field below.  One
`transcribe` call that returns (does not raise). -/
structure TranscribeRun where
  ffmpegError : Bool
  fallbackText : String
  whisperText : String
  fixTerms : Bool
  qwenAvail : Bool
  cleanResp : Option String
  cleanRaises : Bool

/-- `ModelManager.transcribe`, on a run that returns: the soundfile
fallback path returns its decoded text with confidence `0.8`; otherwise
technical terms are fixed when enabled, and the cleaning block yields
confidence `1.0`, or `0.5` when it raises. -/
def transcribe (r : TranscribeRun) : String × ℚ :=
  if r.ffmpegError then (r.fallbackText, 4/5)
  else
    let t := pyStrip r.whisperText
    let t := if r.fixTerms then TechnicalTerms.process_text t else t
    if r.cleanRaises then (t, 1/2)
    else (transcribeCleanStage r.qwenAvail r.cleanResp t, 1)

/-- Manager-side validation after enhancement (lines 345–356): role
markers, or a repeated leading three-word phrase of the raw translation,
discard the enhancement. -/
def enhDecision (enhanced translated : String) : String :=
  if containsAssistant enhanced then translated
  else
    let fw := (pySplitWS translated).take 5
    if decide (2 < fw.length) && decide (1 < pyCount enhanced (joinSp (fw.take 3))) then
      translated
    else enhanced

/-- The enhancement stage of `translate` (lines 336–372): skipped without
an original-Spanish context or when disabled; Qwen when loaded, otherwise
the deterministic simple enhancer; `resp = none` (a raised call) keeps the
raw translation. -/
def translateEnhanceStage (enhEnabled qwenAvail : Bool) (resp : Option String)
    (spanish translated : String) : String :=
  if spanish != "" && enhEnabled then
    if qwenAvail then
      enhDecision (QwenProcessor.enhance_translation spanish translated resp) translated
    else SimpleTextProcessor.enhance_translation spanish translated
  else translated

end ModelManager

/-! ## `audio_handler.py` — ring buffer and recording state machine -/

namespace AudioRecorder

/-- One `deque(maxlen=cap).append`. -/
def dequeAppend {α : Type} (cap : Nat) (buf : List α) (x : α) : List α :=
  if buf.length < cap then buf ++ [x] else (buf ++ [x]).drop (buf.length + 1 - cap)

/-- `deque.extend` — element-wise append. -/
def dequeExtend {α : Type} (cap : Nat) (buf : List α) (chunk : List α) : List α :=
  chunk.foldl (dequeAppend cap) buf

/-- The buffer contents after a sequence of `_audio_callback` chunk
extensions starting from the cleared buffer. -/
def ringAll {α : Type} (cap : Nat) (chunks : List (List α)) : List α :=
  chunks.foldl (dequeExtend cap) []

/-- The last `cap` elements of a list. -/
def lastN {α : Type} (cap : Nat) (l : List α) : List α := l.drop (l.length - cap)

/-- The recorder state touched by `start_recording` / `stop_recording`. -/
structure State (α : Type) where
  is_recording : Bool
  audio_buffer : List α
  silence_start_time : Option ℚ

/-- `start_recording`: refuse when already recording (state untouched);
otherwise clear the buffer and the silence timer and start. -/
def start_recording {α : Type} (s : State α) : Bool × State α :=
  if s.is_recording then (false, s)
  else (true, { is_recording := true, audio_buffer := [], silence_start_time := none })

/-- `stop_recording`: `none` when not recording; otherwise stop and
return the buffer, or `none` when it is empty. -/
def stop_recording {α : Type} (s : State α) : Option (List α) × State α :=
  if !s.is_recording then (none, s)
  else
    let s2 : State α := { s with is_recording := false }
    if 0 < s.audio_buffer.length then (some s.audio_buffer, s2) else (none, s2)

end AudioRecorder

/-! ## Substring helper lemmas -/

theorem startsWithL_append (pat ys : List Char) : startsWithL pat (pat ++ ys) = true := by
  induction pat with
  | nil => rfl
  | cons c t ih => simp [startsWithL, ih]

theorem hasSubL_of_startsWith {pat s : List Char} (h : startsWithL pat s = true) :
    hasSubL pat s = true := by
  cases s with
  | nil => simpa [hasSubL] using h
  | cons c t => simp [hasSubL, h]

theorem hasSubL_cons (pat : List Char) (c : Char) {s : List Char} (h : hasSubL pat s = true) :
    hasSubL pat (c :: s) = true := by
  simp [hasSubL, h]

theorem hasSubL_append (pat xs ys : List Char) : hasSubL pat (xs ++ pat ++ ys) = true := by
  induction xs with
  | nil => exact hasSubL_of_startsWith (startsWithL_append pat ys)
  | cons c t ih => exact hasSubL_cons _ _ ih

/-! ## Claim theorems -/

/-- C3: a candidate containing the role marker `assistant` in any letter
case is rejected by the manager-side validation of both the cleaning
stage and the enhancement stage, and the raw (non-AI) text is used
instead. -/
theorem C3_role_marker_rejection (pre m post raw : String) (h : pyLower m = "assistant") :
    ModelManager.containsAssistant (pre ++ m ++ post) = true
    ∧ ModelManager.cleanDecision (pre ++ m ++ post) raw = raw
    ∧ ModelManager.enhDecision (pre ++ m ++ post) raw = raw := by
  have hm : List.map lowChar m.data = "assistant".data := congrArg String.data h
  have hdata : (pyLower (pre ++ m ++ post)).data
      = (List.map lowChar pre.data ++ "assistant".data) ++ List.map lowChar post.data := by
    show List.map lowChar ((pre.data ++ m.data) ++ post.data) = _
    simp [List.map_append, hm]
  have h1 : ModelManager.containsAssistant (pre ++ m ++ post) = true := by
    unfold ModelManager.containsAssistant pyContains
    rw [hdata]
    exact hasSubL_append _ _ _
  refine ⟨h1, ?_, ?_⟩
  · simp [ModelManager.cleanDecision, h1]
  · simp [ModelManager.enhDecision, h1]

/-- C3 witness: the candidate `"assistant: hello"` against the reference
`"hola"` is rejected at both stages. -/
theorem C3_role_marker_rejection_witness :
    ModelManager.cleanDecision "assistant: hello" "hola" = "hola"
    ∧ ModelManager.enhDecision "assistant: hello" "hola" = "hola" := by
  have h := C3_role_marker_rejection "" "assistant" ": hello" "hola" (by decide)
  exact ⟨h.2.1, h.2.2⟩

/-- C6 counterexample: `process_text` is not idempotent — on
`"foo.pi.pi"` the pattern `\b(\w+)\.pi\b → \1.py` rewrites only the first
occurrence (the second one overlaps it), so a second application rewrites
again: `"foo.pi.pi" ↦ "foo.py.pi" ↦ "foo.py.py"`. -/
theorem C6_counterexample :
    TechnicalTerms.process_text (TechnicalTerms.process_text "foo.pi.pi")
      ≠ TechnicalTerms.process_text "foo.pi.pi" := by decide

/-- C6 amended: `process_text` is a pure total function mapping
`"archivo packash.yasón"` to `"archivo package.json"` and the empty
string to itself, and it is idempotent on that example (though not on all
inputs). -/
theorem C6_concrete_corrections :
    TechnicalTerms.process_text "archivo packash.yasón" = "archivo package.json"
    ∧ TechnicalTerms.process_text "" = ""
    ∧ TechnicalTerms.process_text (TechnicalTerms.process_text "archivo packash.yasón")
        = TechnicalTerms.process_text "archivo packash.yasón" := by
  refine ⟨by decide, by decide, by decide⟩

/-- C8: `stop_recording` on an empty buffer answers `none` (never an
empty segment), and `start_recording` while recording answers `false`
with the state unchanged. -/
theorem C8_stop_empty_start_active {α : Type} (s : AudioRecorder.State α) :
    (s.audio_buffer = [] → (AudioRecorder.stop_recording s).1 = none)
    ∧ (AudioRecorder.stop_recording s).1 ≠ some []
    ∧ (s.is_recording = true → AudioRecorder.start_recording s = (false, s)) := by
  refine ⟨?_, ?_, ?_⟩
  · intro h
    unfold AudioRecorder.stop_recording
    split
    · rfl
    · simp [h]
  · unfold AudioRecorder.stop_recording
    split
    · simp
    · split
      · next hlen => simp; intro he; rw [he] at hlen; simp at hlen
      · simp
  · intro h
    simp [AudioRecorder.start_recording, h]

/-- C8 witness: stopping with an empty buffer while recording yields
`none`; starting while recording fails and keeps the state. -/
theorem C8_stop_empty_start_active_witness :
    (AudioRecorder.stop_recording (⟨true, ([] : List ℚ), none⟩ : AudioRecorder.State ℚ)).1 = none
    ∧ AudioRecorder.start_recording (⟨true, [(0 : ℚ)], none⟩ : AudioRecorder.State ℚ)
        = (false, ⟨true, [(0 : ℚ)], none⟩) :=
  ⟨(C8_stop_empty_start_active _).1 rfl, (C8_stop_empty_start_active _).2.2 rfl⟩

/-- C9 counterexample: a `transcribe` call that returns (the cleaning
block raised, which is caught) has confidence `0.5`, not `1.0`. -/
theorem C9_counterexample :
    ModelManager.transcribe ⟨false, "", "hola", false, true, none, true⟩ = ("hola", 1/2)
    ∧ ((1 : ℚ)/2) ≠ 1 :=
  ⟨rfl, by norm_num⟩

/-- C9 amended: on a returning `transcribe` call the confidence is `1.0`
exactly when the primary decode path was used and the cleaning block did
not raise; the soundfile fallback path yields `0.8` and a raised cleaning
block yields `0.5`. -/
theorem C9_confidence_paths (r : ModelManager.TranscribeRun) :
    (r.ffmpegError = false → r.cleanRaises = false → (ModelManager.transcribe r).2 = 1)
    ∧ (r.ffmpegError = false → r.cleanRaises = true → (ModelManager.transcribe r).2 = 1/2)
    ∧ (r.ffmpegError = true → (ModelManager.transcribe r).2 = 4/5) := by
  refine ⟨fun h1 h2 => ?_, fun h1 h2 => ?_, fun h1 => ?_⟩
  · simp [ModelManager.transcribe, h1, h2]
  · simp [ModelManager.transcribe, h1, h2]
  · simp [ModelManager.transcribe, h1]

/-- C9 witness: the three confidence paths at concrete runs. -/
theorem C9_confidence_paths_witness :
    (ModelManager.transcribe ⟨false, "", "hola", false, false, none, false⟩).2 = 1
    ∧ (ModelManager.transcribe ⟨false, "", "hola", false, false, none, true⟩).2 = 1/2
    ∧ (ModelManager.transcribe ⟨true, "fb", "hola", false, false, none, false⟩).2 = 4/5 :=
  ⟨(C9_confidence_paths _).1 rfl rfl, (C9_confidence_paths _).2.1 rfl rfl,
   (C9_confidence_paths _).2.2 rfl⟩

/-- C1 counterexample: when the cleaning model call raises (`none`), the
stage keeps the raw text `"hola"`, while the deterministic cleaner would
produce `"Hola."`; likewise at the enhancement stage (`"hello"` vs the
deterministic `"Hello."`).  The output is not the deterministic fallback
applied to the stage input. -/
theorem C1_counterexample :
    ModelManager.transcribeCleanStage true none "hola" = "hola"
    ∧ SimpleTextProcessor.clean_spanish_text "hola" = "Hola."
    ∧ ModelManager.translateEnhanceStage true true none "hola" "hello" = "hello"
    ∧ SimpleTextProcessor.enhance_translation "hola" "hello" = "Hello."
    ∧ ("hola" : String) ≠ "Hola."
    ∧ ("hello" : String) ≠ "Hello." := by
  refine ⟨by decide, by decide, by decide, by decide, by decide, by decide⟩

/-- C1 amended: when an optional AI stage fails (the model call raises,
or validation rejects the candidate) the run does not fail and the stage
keeps its raw input text unchanged; the deterministic cleaner/enhancer
runs only when no AI model is loaded, not as the failure fallback. -/
theorem C1_failure_keeps_raw_input (text spanish translated r r2 : String) :
    ModelManager.transcribeCleanStage true none text = text
    ∧ (QwenProcessor.cleanAccept (QwenProcessor.cleanCandidate r) text = false →
        ModelManager.transcribeCleanStage true (some r) text = text)
    ∧ ModelManager.translateEnhanceStage true true none spanish translated = translated
    ∧ (QwenProcessor.enhAccept (QwenProcessor.enhCandidate r2) translated = false →
        ModelManager.translateEnhanceStage true true (some r2) spanish translated = translated) := by
  refine ⟨?_, fun h => ?_, ?_, fun h => ?_⟩
  · simp [ModelManager.transcribeCleanStage, QwenProcessor.clean_spanish_text,
      ModelManager.cleanDecision]
  · simp [ModelManager.transcribeCleanStage, QwenProcessor.clean_spanish_text, h,
      ModelManager.cleanDecision]
  · simp [ModelManager.translateEnhanceStage, QwenProcessor.enhance_translation,
      ModelManager.enhDecision]
  · simp [ModelManager.translateEnhanceStage, QwenProcessor.enhance_translation, h,
      ModelManager.enhDecision]

/-- C1 witness: a rejected candidate (the empty model answer) keeps the
raw text at both stages. -/
theorem C1_failure_keeps_raw_input_witness :
    ModelManager.transcribeCleanStage true (some "") "hola" = "hola"
    ∧ ModelManager.translateEnhanceStage true true (some "") "hola" "hello" = "hello" :=
  ⟨(C1_failure_keeps_raw_input "hola" "x" "y" "" "").2.1 (by decide),
   (C1_failure_keeps_raw_input "x" "hola" "hello" "" "").2.2.2 (by decide)⟩

/-- C2: a candidate longer than twice the reference is rejected at both
stages; a candidate of at least 3 characters within twice the reference
is accepted at the cleaning stage; at the enhancement stage a candidate
is accepted whenever no rejection rule fires (in particular whenever its
length is within the tolerance band and the other rules pass). -/
theorem C2_length_validation (cand ref : String) :
    (2 * ref.length < cand.length →
      QwenProcessor.cleanAccept cand ref = false ∧ QwenProcessor.enhAccept cand ref = false)
    ∧ (3 ≤ cand.length → cand.length ≤ 2 * ref.length →
      QwenProcessor.cleanAccept cand ref = true)
    ∧ (3 ≤ cand.length → QwenProcessor.spanishContam cand = false →
      QwenProcessor.dupEnh cand ref = false → QwenProcessor.lenDrift cand ref = false →
      QwenProcessor.divergent cand ref = false → QwenProcessor.enhAccept cand ref = true) := by
  refine ⟨fun h => ⟨?_, ?_⟩, fun h3 hle => ?_, fun h3 hc hd hl hdiv => ?_⟩
  · simp [QwenProcessor.cleanAccept, h]
  · unfold QwenProcessor.enhAccept
    split
    · rfl
    · split
      · rfl
      · split
        · rfl
        · split
          · rfl
          · next hD =>
            exfalso
            apply hD
            unfold QwenProcessor.lenDrift
            simp only [Bool.or_eq_true, decide_eq_true_eq]
            left
            omega
  · have he : cand ≠ "" := fun he => by rw [he] at h3; exact absurd h3 (by decide)
    unfold QwenProcessor.cleanAccept
    rw [if_neg ?hc1, if_neg ?hc2]
    case hc1 =>
      simp only [Bool.or_eq_true, beq_iff_eq, decide_eq_true_eq]
      rintro (hq | hq)
      · exact he hq
      · omega
    case hc2 => omega
  · have he : cand ≠ "" := fun he => by rw [he] at h3; exact absurd h3 (by decide)
    unfold QwenProcessor.enhAccept
    rw [if_neg ?he1]
    case he1 =>
      simp only [Bool.or_eq_true, beq_iff_eq, decide_eq_true_eq]
      rintro (hq | hq)
      · exact he hq
      · omega
    simp [hc, hd, hl, hdiv]

/-- C2 witness: against the 20-character reference, the 25-character
candidate is accepted at both stages and the 55-character candidate is
rejected at both stages. -/
theorem C2_length_validation_witness :
    QwenProcessor.cleanAccept "abcdefghij abcdefghi, yes" "abcdefghij abcdefghi" = true
    ∧ QwenProcessor.enhAccept "abcdefghij abcdefghi, yes" "abcdefghij abcdefghi" = true
    ∧ QwenProcessor.cleanAccept "xxxxxxxxxxxxxxxxxxxxxxxxxxxxxxxxxxxxxxxxxxxxxxxxxxxxxxx"
        "abcdefghij abcdefghi" = false
    ∧ QwenProcessor.enhAccept "xxxxxxxxxxxxxxxxxxxxxxxxxxxxxxxxxxxxxxxxxxxxxxxxxxxxxxx"
        "abcdefghij abcdefghi" = false :=
  ⟨(C2_length_validation _ _).2.1 (by decide) (by decide),
   (C2_length_validation _ _).2.2 (by decide) (by decide) (by decide) (by decide) (by decide),
   ((C2_length_validation _ _).1 (by decide)).1,
   ((C2_length_validation _ _).1 (by decide)).2⟩

/-- C4 counterexample: the candidate `"que que que que que"`, all of
whose five tokens are Spanish function words, is accepted (the source
counts distinct indicator words present — here one — against the token
count, `1/5 = 20%` is not above the threshold), and the candidate, not
the raw translation, is used. -/
theorem C4_counterexample :
    (∀ w ∈ pySplitWS "que que que que que", w ∈ QwenProcessor.spanish_indicators)
    ∧ QwenProcessor.enhAccept "que que que que que" "abcdefghijklm" = true
    ∧ ModelManager.translateEnhanceStage true true (some "que que que que que") "x"
        "abcdefghijklm" = "que que que que que" := by
  refine ⟨by decide, by decide, by decide⟩

/-- C4 amended: at the enhancement stage the validator rejects when the
number of distinct indicator words (from its fixed nine-word Spanish
list) present among the candidate tokens exceeds 20% of the candidate
token count. -/
theorem C4_contamination_rejects (cand ref : String)
    (hw : 0 < (pySplitWS (pyLower cand)).length)
    (hr : (pySplitWS (pyLower cand)).length
        < 5 * (QwenProcessor.spanish_indicators.filter
            (fun w => (pySplitWS (pyLower cand)).contains w)).length) :
    QwenProcessor.enhAccept cand ref = false := by
  have hcontam : QwenProcessor.spanishContam cand = true := by
    show (decide (0 < (pySplitWS (pyLower cand)).length)
      && decide ((pySplitWS (pyLower cand)).length
        < 5 * (QwenProcessor.spanish_indicators.filter
            (fun w => (pySplitWS (pyLower cand)).contains w)).length)) = true
    simp only [Bool.and_eq_true, decide_eq_true_eq]
    exact ⟨hw, hr⟩
  unfold QwenProcessor.enhAccept
  split
  · rfl
  · simp [hcontam]

/-- C4 witness: a candidate with four distinct indicator words among five
tokens (ratio 4/5 > 20%) is rejected. -/
theorem C4_contamination_rejects_witness :
    QwenProcessor.enhAccept "que por pero como y" "whatever ref" = false :=
  C4_contamination_rejects _ _ (by decide) (by decide)

/-- C5 counterexample: against the two-distinct-word reference
`"hello world"`, the candidate `"good morning"` shares none of the
reference tokens (fewer than half recur) yet is accepted and used — the
divergence check only runs when the reference has more than two distinct
tokens. -/
theorem C5_counterexample :
    (distinctL (pySplitWS (pyLower "hello world"))).length = 2
    ∧ ((distinctL (pySplitWS (pyLower "hello world"))).filter
        (fun w => (pySplitWS (pyLower "good morning")).contains w)).length = 0
    ∧ QwenProcessor.enhAccept "good morning" "hello world" = true
    ∧ ModelManager.translateEnhanceStage true true (some "good morning") "x" "hello world"
        = "good morning" := by
  refine ⟨by decide, by decide, by decide, by decide⟩

/-- C5 amended: the divergence check applies only when the reference has
more than two distinct case-insensitive tokens; then a candidate in which
fewer than half of them recur is rejected. -/
theorem C5_divergence_rejects (cand ref : String)
    (h3 : 2 < (distinctL (pySplitWS (pyLower ref))).length)
    (hh : 2 * ((distinctL (pySplitWS (pyLower ref))).filter
        (fun w => (pySplitWS (pyLower cand)).contains w)).length
        < (distinctL (pySplitWS (pyLower ref))).length) :
    QwenProcessor.enhAccept cand ref = false := by
  have hdv : QwenProcessor.divergent cand ref = true := by
    show (decide (2 < (distinctL (pySplitWS (pyLower ref))).length)
      && decide (2 * ((distinctL (pySplitWS (pyLower ref))).filter
          (fun w => (pySplitWS (pyLower cand)).contains w)).length
        < (distinctL (pySplitWS (pyLower ref))).length)) = true
    simp only [Bool.and_eq_true, decide_eq_true_eq]
    exact ⟨h3, hh⟩
  unfold QwenProcessor.enhAccept
  split
  · rfl
  · split
    · rfl
    · split
      · rfl
      · split
        · rfl
        · simp [hdv]

/-- C5 witness: a candidate sharing none of the four distinct reference
tokens is rejected. -/
theorem C5_divergence_rejects_witness :
    QwenProcessor.enhAccept "zzz yyy xxx" "one two three four" = false :=
  C5_divergence_rejects _ _ (by decide) (by decide)

/-! ## Ring-buffer lemmas for C7 -/

theorem lastN_length_le {α : Type} (cap : Nat) (l : List α) :
    (AudioRecorder.lastN cap l).length ≤ cap := by
  simp only [AudioRecorder.lastN, List.length_drop]
  omega

theorem lastN_of_le {α : Type} (cap : Nat) (l : List α) (h : l.length ≤ cap) :
    AudioRecorder.lastN cap l = l := by
  unfold AudioRecorder.lastN
  rw [show l.length - cap = 0 by omega, List.drop_zero]

theorem dequeAppend_eq_lastN {α : Type} (cap : Nat) (buf : List α) (x : α)
    (_h : buf.length ≤ cap) :
    AudioRecorder.dequeAppend cap buf x = AudioRecorder.lastN cap (buf ++ [x]) := by
  unfold AudioRecorder.dequeAppend AudioRecorder.lastN
  have hl : (buf ++ [x]).length = buf.length + 1 := by simp
  rw [hl]
  split
  · next hlt => rw [show buf.length + 1 - cap = 0 by omega, List.drop_zero]
  · rfl

theorem lastN_append_absorb {α : Type} (cap : Nat) (l m : List α) :
    AudioRecorder.lastN cap (AudioRecorder.lastN cap l ++ m)
      = AudioRecorder.lastN cap (l ++ m) := by
  unfold AudioRecorder.lastN
  rw [List.drop_append_eq_append_drop, List.drop_append_eq_append_drop, List.drop_drop]
  simp only [List.length_append, List.length_drop]
  congr 1
  · congr 1
    omega
  · congr 1
    omega

theorem foldl_dequeAppend {α : Type} (cap : Nat) (xs : List α) :
    ∀ buf : List α, buf.length ≤ cap →
      List.foldl (AudioRecorder.dequeAppend cap) buf xs
        = AudioRecorder.lastN cap (buf ++ xs) := by
  induction xs with
  | nil =>
    intro buf h
    rw [List.foldl_nil, List.append_nil, lastN_of_le cap buf h]
  | cons x xs ih =>
    intro buf h
    have hlen : (AudioRecorder.dequeAppend cap buf x).length ≤ cap := by
      rw [dequeAppend_eq_lastN cap buf x h]
      exact lastN_length_le _ _
    rw [List.foldl_cons, ih _ hlen, dequeAppend_eq_lastN cap buf x h, lastN_append_absorb,
      List.append_assoc, List.singleton_append]

theorem foldl_dequeExtend {α : Type} (cap : Nat) (chunks : List (List α)) :
    ∀ buf : List α, buf.length ≤ cap →
      List.foldl (AudioRecorder.dequeExtend cap) buf chunks
        = AudioRecorder.lastN cap (buf ++ chunks.flatten) := by
  induction chunks with
  | nil =>
    intro buf h
    rw [List.foldl_nil, List.flatten_nil, List.append_nil, lastN_of_le cap buf h]
  | cons c cs ih =>
    intro buf h
    have hext : AudioRecorder.dequeExtend cap buf c = AudioRecorder.lastN cap (buf ++ c) :=
      foldl_dequeAppend cap c buf h
    have hlen : (AudioRecorder.dequeExtend cap buf c).length ≤ cap := by
      rw [hext]
      exact lastN_length_le _ _
    rw [List.foldl_cons, ih _ hlen, hext, lastN_append_absorb, List.flatten_cons,
      ← List.append_assoc]

/-- C7: for every capacity and every sequence of appended chunks the ring
buffer never exceeds its capacity and always holds exactly the most
recent samples of the stream; at capacity an append evicts the oldest
sample first. -/
theorem C7_ring_capacity_fifo {α : Type} (cap : Nat) (chunks : List (List α)) :
    (AudioRecorder.ringAll cap chunks).length ≤ cap
    ∧ AudioRecorder.ringAll cap chunks = AudioRecorder.lastN cap chunks.flatten
    ∧ (∀ (buf : List α) (x : α), buf.length = cap → 0 < cap →
        AudioRecorder.dequeAppend cap buf x = buf.tail ++ [x]) := by
  have hmain : AudioRecorder.ringAll cap chunks = AudioRecorder.lastN cap chunks.flatten := by
    unfold AudioRecorder.ringAll
    rw [foldl_dequeExtend cap chunks [] (by simp), List.nil_append]
  refine ⟨?_, hmain, ?_⟩
  · rw [hmain]
    exact lastN_length_le _ _
  · intro buf x hlen hpos
    unfold AudioRecorder.dequeAppend
    rw [if_neg (by omega), List.drop_append_eq_append_drop,
      show buf.length + 1 - cap = 1 by omega, List.drop_one,
      show 1 - buf.length = 0 by omega, List.drop_zero]

/-- C7 witness: with capacity 2, appending the chunks `[1,2]` then `[3]`
leaves `[2,3]`; a full buffer `[1,2]` evicts its oldest sample on
append. -/
theorem C7_ring_capacity_fifo_witness :
    AudioRecorder.ringAll 2 [[1, 2], [3]] = [(2 : Nat), 3]
    ∧ AudioRecorder.dequeAppend 2 [(1 : Nat), 2] 5 = [2, 5] :=
  ⟨((C7_ring_capacity_fifo 2 [[1, 2], [3]]).2.1).trans (by decide),
   (C7_ring_capacity_fifo 2 []).2.2 [1, 2] 5 (by decide) (by decide)⟩

/-! ## Character-preservation lemmas for C10 -/

theorem instTemplate_pred (p : Char → Prop) (s : List Char) (caps : List Capture)
    (hs : ∀ c ∈ s, p c) :
    ∀ tmpl : List TItem, (∀ t, TItem.lit t ∈ tmpl → ∀ c ∈ t.data, p c) →
      ∀ c ∈ instTemplate s caps tmpl, p c := by
  intro tmpl
  induction tmpl with
  | nil =>
    intro _ c hc
    simp [instTemplate] at hc
  | cons it rest ih =>
    intro ht c hc
    cases it with
    | lit t =>
      rw [instTemplate] at hc
      rcases List.mem_append.mp hc with h1 | h2
      · exact ht t (by simp) c h1
      · exact ih (fun u hu => ht u (by simp [hu])) c h2
    | ref g =>
      rw [instTemplate] at hc
      rcases List.mem_append.mp hc with h1 | h2
      · cases hfind : caps.find? (fun e => e.1 == g) with
        | none =>
          rw [hfind] at h1
          simp at h1
        | some e =>
          rw [hfind] at h1
          exact hs c (List.Sublist.mem h1 ((List.take_sublist _ _).trans (List.drop_sublist _ _)))
      · exact ih (fun u hu => ht u (by simp [hu])) c h2

theorem reSubFrom_pred (p : Char → Prop) (s : List Char) (re : RE) (tmpl : List TItem)
    (hs : ∀ c ∈ s, p c) (ht : ∀ t, TItem.lit t ∈ tmpl → ∀ c ∈ t.data, p c) :
    ∀ (fuel i : Nat), ∀ c ∈ reSubFrom s re tmpl i fuel, p c := by
  intro fuel
  induction fuel with
  | zero =>
    intro i c hc
    simp [reSubFrom] at hc
  | succ fuel ih =>
    intro i c hc
    rw [reSubFrom] at hc
    split at hc
    · split at hc
      · split at hc
        · rcases List.mem_append.mp hc with h1 | h2
          · exact instTemplate_pred p s _ hs tmpl ht c h1
          · exact ih _ c h2
        · rcases List.mem_append.mp hc with h1 | h2
          · exact hs c (List.Sublist.mem h1 ((List.take_sublist _ _).trans (List.drop_sublist _ _)))
          · exact ih _ c h2
      · rcases List.mem_append.mp hc with h1 | h2
        · exact hs c (List.Sublist.mem h1 ((List.take_sublist _ _).trans (List.drop_sublist _ _)))
        · exact ih _ c h2
    · simp at hc

theorem reSub_pred (p : Char → Prop) (re : RE) (tmpl : List TItem) (s : String)
    (hs : ∀ c ∈ s.data, p c) (ht : ∀ t, TItem.lit t ∈ tmpl → ∀ c ∈ t.data, p c) :
    ∀ c ∈ (reSub re tmpl s).data, p c := by
  intro c hc
  exact reSubFrom_pred p s.data re tmpl hs ht _ _ c hc

theorem trimBy_subset (p : Char → Bool) (l : List Char) : ∀ c ∈ trimBy p l, c ∈ l := by
  intro c hc
  unfold trimBy at hc
  rw [List.mem_reverse] at hc
  have h2 : c ∈ (List.dropWhile p l).reverse := List.Sublist.mem hc (List.dropWhile_sublist _)
  rw [List.mem_reverse] at h2
  exact List.Sublist.mem h2 (List.dropWhile_sublist _)

theorem pyLower_no_upper (t : String) : ∀ c ∈ (pyLower t).data, isUpperAscii c = false := by
  intro c hc
  have hc2 : c ∈ List.map lowChar t.data := hc
  rcases List.mem_map.mp hc2 with ⟨a, _, rfl⟩
  exact lowChar_not_upper a

theorem cleanFinalize_shape (s : String) (hs : ∀ c ∈ s.data, isUpperAscii c = false) :
    SimpleTextProcessor.cleanFinalize s = ""
    ∨ (SimpleTextProcessor.endsPunct (SimpleTextProcessor.cleanFinalize s) = true
       ∧ (∀ c ∈ (SimpleTextProcessor.cleanFinalize s).data.tail, isUpperAscii c = false)
       ∧ (∀ c, (SimpleTextProcessor.cleanFinalize s).data.head? = some c →
           isLowerAscii c = false)) := by
  rcases s with ⟨d⟩
  cases d with
  | nil =>
    left
    rfl
  | cons c t =>
    right
    have hcf : SimpleTextProcessor.capFirst ⟨c :: t⟩ = ⟨upChar c :: t⟩ := rfl
    have hnem : (⟨upChar c :: t⟩ : String) ≠ "" := by
      intro h
      simpa using congrArg String.data h
    have htail : ∀ ch ∈ t, isUpperAscii ch = false := fun ch hch =>
      hs ch (List.mem_cons_of_mem _ hch)
    by_cases hep : SimpleTextProcessor.endsPunct ⟨upChar c :: t⟩ = true
    · have hr : SimpleTextProcessor.cleanFinalize ⟨c :: t⟩ = ⟨upChar c :: t⟩ := by
        simp [SimpleTextProcessor.cleanFinalize, hcf, hep]
      refine ⟨by rw [hr]; exact hep, ?_, ?_⟩
      · intro ch hch
        rw [hr] at hch
        exact htail ch hch
      · intro ch hch
        rw [hr] at hch
        cases hch
        exact upChar_not_lower c
    · have hr : SimpleTextProcessor.cleanFinalize ⟨c :: t⟩ = ⟨upChar c :: t⟩ ++ "." := by
        simp only [SimpleTextProcessor.cleanFinalize, hcf]
        rw [if_pos]
        simp only [bne_iff_ne, ne_eq, Bool.and_eq_true, Bool.not_eq_true']
        exact ⟨hnem, Bool.not_eq_true _ ▸ hep⟩
      refine ⟨?_, ?_, ?_⟩
      · rw [hr]
        unfold SimpleTextProcessor.endsPunct
        have hd : ((⟨upChar c :: t⟩ : String) ++ ".").data = (upChar c :: t) ++ ['.'] := rfl
        rw [hd, List.getLast?_concat]
        decide
      · intro ch hch
        rw [hr] at hch
        have hch2 : ch ∈ t ++ ['.'] := hch
        rcases List.mem_append.mp hch2 with h1 | h1
        · exact htail ch h1
        · rcases List.mem_singleton.mp h1 with rfl
          decide
      · intro ch hch
        rw [hr] at hch
        have hch2 : some (upChar c) = some ch := hch
        cases hch2
        exact upChar_not_lower c

/-- C10 counterexample: on the input `"123"` the cleaner returns
`"123."`, a nonempty result whose first character is not an uppercase
letter — so a nonempty result does not always start with an uppercase
character. -/
theorem C10_counterexample :
    SimpleTextProcessor.clean_spanish_text "123" = "123."
    ∧ isUpperAscii '1' = false
    ∧ ("123." : String) ≠ "" := by
  refine ⟨by decide, by decide, by decide⟩

/-- C10 amended: the deterministic cleaner lower-cases the whole input
first, so no interior uppercase letter survives; its result is either
empty (in particular on a filler-and-whitespace-only input, with nothing
appended) or ends with `'.'`, `'!'` or `'?'`, has no uppercase ASCII
letter after its first character, and its first character is never a
lowercase ASCII letter (it is upper-cased when it is a letter). -/
theorem C10_clean_shape :
    (∀ text : String,
      SimpleTextProcessor.clean_spanish_text text = ""
      ∨ (SimpleTextProcessor.endsPunct (SimpleTextProcessor.clean_spanish_text text) = true
         ∧ (∀ c ∈ (SimpleTextProcessor.clean_spanish_text text).data.tail,
             isUpperAscii c = false)
         ∧ (∀ c, (SimpleTextProcessor.clean_spanish_text text).data.head? = some c →
             isLowerAscii c = false)))
    ∧ SimpleTextProcessor.clean_spanish_text "este eh bueno" = "" := by
  constructor
  · intro text
    have hsp : ∀ t, TItem.lit t ∈ ([TItem.lit " "] : List TItem) →
        ∀ c ∈ t.data, isUpperAscii c = false := by
      intro t htm c hcm
      have he := List.mem_singleton.mp htm
      injection he with he2
      subst he2
      have : c = ' ' := by simpa using hcm
      subst this
      decide
    have h0 := pyLower_no_upper text
    have h1 := reSub_pred _ SimpleTextProcessor.fillerRE _ _ h0 hsp
    have h2 := reSub_pred _ reWS _ _ h1 hsp
    have h3 := reSub_pred _ SimpleTextProcessor.trimRE _ _ h2 hsp
    have h4 : ∀ c ∈ (pyStrip (reSub SimpleTextProcessor.trimRE [TItem.lit " "]
        (reSub reWS [TItem.lit " "]
          (reSub SimpleTextProcessor.fillerRE [TItem.lit " "] (pyLower text))))).data,
        isUpperAscii c = false :=
      fun c hc => h3 c (trimBy_subset _ _ c hc)
    exact cleanFinalize_shape _ h4
  · decide

/-- C10 witness: at the input `"hola"` the cleaner yields a punctuated
result whose first character is not lowercase. -/
theorem C10_clean_shape_witness :
    SimpleTextProcessor.endsPunct (SimpleTextProcessor.clean_spanish_text "hola") = true
    ∧ isLowerAscii 'H' = false := by
  have h := (C10_clean_shape.1 "hola").resolve_left (by decide)
  exact ⟨h.1, h.2.2 'H' (by decide)⟩
